import Mathlib

/-!
# Shadow Caster — verification of the geometry synthesis pipeline

Shallow embedding of the core pipeline of the `shadow_caster` repository:
the configuration resolver (`computeImageConfig`, `web/src/types/ImageConfig.ts`),
the image quantizer (`ditherImage`, `roundToLayerHeight`,
`web/src/utils/imageProcessing.ts`), the geometry synthesizer
(`generateShadowCasterGeometry`, `web/src/utils/geometryGenerator.ts`) and the
mesh merger / binary STL encoder (`mergeBufferGeometries`,
`web/src/utils/stlExporter.ts`; the byte layout of the external
`STLExporter`/`BoxGeometry` collaborators is modelled from the specification).

JavaScript `number` arithmetic is embedded as exact rational arithmetic (`ℚ`);
`Math.round` is `round` (both round half toward `+∞`), `Math.floor` is `Int.floor`.
-/

namespace ShadowCaster

/-- The user-facing parameter record (`ImageConfig` in `web/src/types/ImageConfig.ts`). -/
structure ImageConfig where
  horizImageFilename : String
  vertImageFilename : String
  widthInPixels : ℕ
  doHorizImage : Bool
  doVertImage : Bool
  cellSize : ℚ
  wallWidth : ℚ
  bottomThk : ℚ
  layerHeight : ℚ
  numberOfColorsOverride : ℤ
deriving Repr, DecidableEq

/-- The resolved record (`ComputedImageConfig` in `web/src/types/ImageConfig.ts`).
The TypeScript interface does not declare `shouldDoPlusWalls`, but
`generateShadowCasterGeometry` reads `config.shouldDoPlusWalls`; at runtime the
missing property is `undefined`, which is falsy, so it is modelled as a `Bool`
field that `computeImageConfig` sets to `false`. -/
structure ComputedImageConfig extends ImageConfig where
  maxHeight : ℚ
  numberOfColors : ℤ
  border : ℚ
  outputFilename : String
  shouldDoPlusWalls : Bool
deriving Repr, DecidableEq

/-- Left-pad a remainder below 100 to two digits (decimal part of `toFixed(2)`). -/
def pad2 (r : ℕ) : String := if r < 10 then "0" ++ toString r else toString r

/-- JavaScript `n.toFixed(2)` on an exact rational: round `n * 100` to an integer
(half toward `+∞`, matching `Math.round`-style rounding on the exact value) and
render with exactly two digits after the decimal point. -/
def toFixed2 (q : ℚ) : String :=
  let m : ℤ := round (q * 100)
  let s := toString (m.natAbs / 100) ++ "." ++ pad2 (m.natAbs % 100)
  if m < 0 then "-" ++ s else s

/-- `format` from `web/src/types/ImageConfig.ts`:
`n.toFixed(n === Math.floor(n) ? 0 : 2)` — integers render with no decimal
digits, non-integers with exactly two. -/
def format (q : ℚ) : String :=
  if q.den = 1 then toString q.num else toFixed2 q

/-- `computeImageConfig` from `web/src/types/ImageConfig.ts`. Note that the
source performs no validation of any invariant: it unconditionally computes the
derived fields and returns the record. -/
def computeImageConfig (config : ImageConfig) : ComputedImageConfig :=
  let numberOfColors : ℤ :=
    if config.numberOfColorsOverride = 0 then
      ⌊(config.cellSize - config.wallWidth) / config.layerHeight⌋
    else config.numberOfColorsOverride
  let maxHeight : ℚ := (numberOfColors : ℚ) * config.layerHeight
  let border : ℚ := config.cellSize
  let outputFilename : String :=
    toString config.widthInPixels ++ "px_" ++ format config.cellSize ++ "cell_" ++
      format config.wallWidth ++ "wall_" ++ format config.bottomThk ++ "bottom_" ++
      format maxHeight ++ "maxHeight.stl"
  { config with
    maxHeight := maxHeight
    numberOfColors := numberOfColors
    border := border
    outputFilename := outputFilename
    shouldDoPlusWalls := false }

/-- `defaultConfig` from `web/src/types/ImageConfig.ts`. -/
def defaultConfig : ImageConfig :=
  { horizImageFilename := "horizontal.jpg"
    vertImageFilename := "vertical.jpg"
    widthInPixels := 100
    doHorizImage := true
    doVertImage := true
    cellSize := 21/10
    wallWidth := 2/5
    bottomThk := 4/5
    layerHeight := 1/10
    numberOfColorsOverride := 0 }

/-! ## Image quantizer (`web/src/utils/imageProcessing.ts`) -/

/-- A row-major 2D array of JavaScript numbers (`number[][]`). -/
abbrev Grid := List (List ℚ)

/-- `ProcessedImageData` from `web/src/utils/imageProcessing.ts`. -/
structure ProcessedImageData where
  data : Grid
  width : ℕ
  height : ℕ
deriving Repr, DecidableEq

/-- Read `g[y][x]` (0 for an out-of-range access, which the in-range loops never perform). -/
def getCell (g : Grid) (y x : ℕ) : ℚ := (g.getD y []).getD x 0

/-- Write `g[y][x] = v` (no-op out of range). -/
def setCell (g : Grid) (y x : ℕ) (v : ℚ) : Grid := g.set y ((g.getD y []).set x v)

/-- `g[y][x] += d`. -/
def addCell (g : Grid) (y x : ℕ) (d : ℚ) : Grid := setCell g y x (getCell g y x + d)

/-- Body of the Floyd–Steinberg loop of `ditherImage` for pixel `(x, y)`:
quantize the accumulated value to the nearest multiple of `stp`, then diffuse
the quantization error to the not-yet-visited neighbours (right 7/16,
below-left 3/16, below 5/16, below-right 1/16), skipping out-of-range
neighbours exactly as the source's bounds checks do. -/
def ditherStep (stp : ℚ) (width height : ℕ) (g : Grid) (y x : ℕ) : Grid :=
  let oldPixel := getCell g y x
  let newPixel := ((round (oldPixel / stp) : ℤ) : ℚ) * stp
  let g1 := setCell g y x newPixel
  let error := oldPixel - newPixel
  let g2 := if x + 1 < width then addCell g1 y (x + 1) (error * 7 / 16) else g1
  if y + 1 < height then
    let g3 := if 1 ≤ x then addCell g2 (y + 1) (x - 1) (error * 3 / 16) else g2
    let g4 := addCell g3 (y + 1) x (error * 5 / 16)
    if x + 1 < width then addCell g4 (y + 1) (x + 1) (error * 1 / 16) else g4
  else g2

/-- The two nested row-major loops of `ditherImage`. -/
def ditherLoop (stp : ℚ) (width height : ℕ) (g : Grid) : Grid :=
  (List.range height).foldl
    (fun g y => (List.range width).foldl (fun g x => ditherStep stp width height g y x) g) g

/-- `ditherImage` from `web/src/utils/imageProcessing.ts`. The source first
copies the input (`data.map(row => [...row])`) and then mutates only the copy;
on values the copy is the identity, so the value-level embedding runs the loop
on `imageData.data` directly (the aliasing discipline itself is verified
against the heap-level model `ditherImageHeap` below). -/
def ditherImage (imageData : ProcessedImageData) (numberOfColors : ℕ) : ProcessedImageData :=
  let levels : ℚ := (numberOfColors : ℚ) - 1
  let stp : ℚ := 255 / levels
  { data := ditherLoop stp imageData.width imageData.height imageData.data
    width := imageData.width
    height := imageData.height }

/-- `roundToLayerHeight` from `web/src/utils/imageProcessing.ts`:
`Math.round(height / layerHeight) * layerHeight`. -/
def roundToLayerHeight (height layerHeight : ℚ) : ℚ :=
  ((round (height / layerHeight) : ℤ) : ℚ) * layerHeight

/-! ## Geometry synthesizer (`web/src/utils/geometryGenerator.ts`) -/

/-- A 3-vector of millimetre coordinates (`[number, number, number]` in the source). -/
structure Vec3 where
  x : ℚ
  y : ℚ
  z : ℚ
deriving Repr, DecidableEq

/-- `WallGeometry` from `web/src/utils/geometryGenerator.ts`: an axis-aligned
box given by its centre `position` and its `size`. -/
structure WallGeometry where
  position : Vec3
  size : Vec3
deriving Repr, DecidableEq

/-- `ShadowCasterGeometry` from `web/src/utils/geometryGenerator.ts`. -/
structure ShadowCasterGeometry where
  base : WallGeometry
  leftWalls : List WallGeometry
  upWalls : List WallGeometry
deriving Repr, DecidableEq

/-- The per-pixel wall height computed inline in `generateShadowCasterGeometry`
(lines 30–33 and 57–60): `roundToLayerHeight((1 - val / 256) * (maxHeight - layerHeight), layerHeight)`. -/
def wallHeight (config : ComputedImageConfig) (val : ℚ) : ℚ :=
  roundToLayerHeight ((1 - val / 256) * (config.maxHeight - config.layerHeight)) config.layerHeight

/-- The left wall emitted for pixel `(x, y)` of the horizontal-axis grid `d`
(loop body at `geometryGenerator.ts` lines 29–47). `0.5` and `0.01` are the
exact constants of the source. -/
def mkLeftWall (config : ComputedImageConfig) (d : ProcessedImageData) (y x : ℕ) : WallGeometry :=
  let val := getCell d.data y x
  let wh := wallHeight config val
  let posX := config.border + ((x : ℚ) + 1) * config.cellSize +
    (if config.shouldDoPlusWalls then (1/2) * (config.cellSize - config.wallWidth) else 0)
  let posY := config.border + ((d.height : ℚ) - (y : ℚ)) * config.cellSize
  let posZ := config.bottomThk + wh / 2 + config.layerHeight / 2
  { position := ⟨posX, posY, posZ⟩
    size := ⟨config.wallWidth + 1/100, config.cellSize + 1/100, wh + config.layerHeight⟩ }

/-- The up wall emitted for pixel `(x, y)` of the vertical-axis grid `d`
(loop body at `geometryGenerator.ts` lines 56–74). -/
def mkUpWall (config : ComputedImageConfig) (d : ProcessedImageData) (y x : ℕ) : WallGeometry :=
  let val := getCell d.data y x
  let wh := wallHeight config val
  let posX := config.border + ((x : ℚ) + 1) * config.cellSize
  let posY := config.border + ((d.height : ℚ) - (y : ℚ)) * config.cellSize +
    (if config.shouldDoPlusWalls then (1/2) * (config.cellSize - config.wallWidth) else 0)
  let posZ := config.bottomThk + wh / 2 + config.layerHeight / 2
  { position := ⟨posX, posY, posZ⟩
    size := ⟨config.cellSize + 1/100, config.wallWidth + 1/100, wh + config.layerHeight⟩ }

/-- `generateShadowCasterGeometry` from `web/src/utils/geometryGenerator.ts`.
Each axis walks its own grid's full `height × width` index range (the `y`/`x`
nested loops become a `flatMap`/`map` over the same ranges); the base spans the
larger of the two grids' dimensions. The source is a total function: it has no
failure path whatsoever. -/
def generateShadowCasterGeometry (horizImageData vertImageData : Option ProcessedImageData)
    (config : ComputedImageConfig) : ShadowCasterGeometry :=
  let leftWalls : List WallGeometry :=
    match horizImageData with
    | some d =>
      if config.doHorizImage then
        (List.range d.height).flatMap
          (fun y => (List.range d.width).map (fun x => mkLeftWall config d y x))
      else []
    | none => []
  let upWalls : List WallGeometry :=
    match vertImageData with
    | some d =>
      if config.doVertImage then
        (List.range d.height).flatMap
          (fun y => (List.range d.width).map (fun x => mkUpWall config d y x))
      else []
    | none => []
  let imageWidth : ℕ :=
    max (match horizImageData with | some d => d.width | none => 0)
        (match vertImageData with | some d => d.width | none => 0)
  let imageHeight : ℕ :=
    max (match horizImageData with | some d => d.height | none => 0)
        (match vertImageData with | some d => d.height | none => 0)
  let baseWidth := config.border * 2 + config.cellSize * ((imageWidth : ℚ) + 2)
  let baseHeight := config.border * 2 + config.cellSize * ((imageHeight : ℚ) + 2)
  let base : WallGeometry :=
    { position := ⟨baseWidth / 2, baseHeight / 2, config.bottomThk / 2⟩
      size := ⟨baseWidth, baseHeight, config.bottomThk⟩ }
  { base := base, leftWalls := leftWalls, upWalls := upWalls }

/-! ## Mesh merger and binary STL encoder (`web/src/utils/stlExporter.ts`)

`mergeBufferGeometries` is translated from the source. The repository delegates
box tessellation to `three`'s `BoxGeometry` and the byte serialization to
`three-stdlib`'s `STLExporter` (binary mode); those collaborators are not part
of the repository, so they are modelled from the specification (§4.4): a
canonical 12-triangle, 24-vertex axis-aligned cuboid per box, placed by pure
translation, and a binary layout of an 80-byte header, a little-endian uint32
triangle count, and one 50-byte record per triangle. -/

/-- The slice of `THREE.BufferGeometry` used by `stlExporter.ts`: a `position`
attribute, a `normal` attribute (3 components per vertex each, stored here as
`Vec3`s) and an optional triangle index. -/
structure BufferGeometry where
  positions : List Vec3
  normals : List Vec3
  index : Option (List ℕ)
deriving Repr, DecidableEq

/-- `new THREE.BufferGeometry()` with no attributes. -/
def emptyBufferGeometry : BufferGeometry := { positions := [], normals := [], index := none }

/-- Triangle index of the canonical cuboid: 6 faces × 4 vertices, 2 triangles
per face. Modelled from the spec: "a canonical 12-triangle, 24-vertex …
axis-aligned cuboid mesh". -/
def boxIndex : List ℕ :=
  (List.range 6).flatMap (fun f => [4 * f, 4 * f + 2, 4 * f + 1, 4 * f + 2, 4 * f + 3, 4 * f + 1])

/-- Modelled from the spec: the canonical 24-vertex, 12-triangle axis-aligned
cuboid of size `(sx, sy, sz)` centred at the origin (the `THREE.BoxGeometry`
collaborator), with one constant normal per face. -/
def boxGeometry (sx sy sz : ℚ) : BufferGeometry :=
  let hx := sx / 2
  let hy := sy / 2
  let hz := sz / 2
  { positions := [
      ⟨hx, hy, hz⟩, ⟨hx, hy, -hz⟩, ⟨hx, -hy, hz⟩, ⟨hx, -hy, -hz⟩,
      ⟨-hx, hy, hz⟩, ⟨-hx, hy, -hz⟩, ⟨-hx, -hy, hz⟩, ⟨-hx, -hy, -hz⟩,
      ⟨hx, hy, hz⟩, ⟨hx, hy, -hz⟩, ⟨-hx, hy, hz⟩, ⟨-hx, hy, -hz⟩,
      ⟨hx, -hy, hz⟩, ⟨hx, -hy, -hz⟩, ⟨-hx, -hy, hz⟩, ⟨-hx, -hy, -hz⟩,
      ⟨hx, hy, hz⟩, ⟨hx, -hy, hz⟩, ⟨-hx, hy, hz⟩, ⟨-hx, -hy, hz⟩,
      ⟨hx, hy, -hz⟩, ⟨hx, -hy, -hz⟩, ⟨-hx, hy, -hz⟩, ⟨-hx, -hy, -hz⟩]
    normals :=
      List.replicate 4 ⟨1, 0, 0⟩ ++ List.replicate 4 ⟨-1, 0, 0⟩ ++
      List.replicate 4 ⟨0, 1, 0⟩ ++ List.replicate 4 ⟨0, -1, 0⟩ ++
      List.replicate 4 ⟨0, 0, 1⟩ ++ List.replicate 4 ⟨0, 0, -1⟩
    index := some boxIndex }

/-- `geometry.applyMatrix4(translation)` for the pure translations used by
`exportToSTL` (each mesh's transform is position-only, so vertex positions
shift and normals are unchanged). -/
def translateGeometry (p : Vec3) (g : BufferGeometry) : BufferGeometry :=
  { positions := g.positions.map (fun q => ⟨q.x + p.x, q.y + p.y, q.z + p.z⟩)
    normals := g.normals
    index := g.index }

/-- One `geometries.forEach` iteration of `mergeBufferGeometries`
(`stlExporter.ts` lines 126–157): append positions and normals, rebase the
index (or synthesize `vertexOffset + i` for non-indexed input) and advance the
running vertex offset. -/
def mergeStep (acc : List Vec3 × List Vec3 × List ℕ × ℕ) (g : BufferGeometry) :
    List Vec3 × List Vec3 × List ℕ × ℕ :=
  let newIndex : List ℕ :=
    match g.index with
    | some idx => idx.map (· + acc.2.2.2)
    | none => (List.range g.positions.length).map (· + acc.2.2.2)
  (acc.1 ++ g.positions, acc.2.1 ++ g.normals, acc.2.2.1 ++ newIndex,
    acc.2.2.2 + g.positions.length)

/-- `mergeBufferGeometries` from `web/src/utils/stlExporter.ts`: empty input
gives an empty geometry, a single geometry is returned as-is, and otherwise all
vertex/normal/index buffers are concatenated with indices rebased by the
running vertex count. -/
def mergeBufferGeometries (geometries : List BufferGeometry) : BufferGeometry :=
  match geometries with
  | [] => emptyBufferGeometry
  | [g] => g
  | _ =>
    let m := geometries.foldl mergeStep ([], [], [], 0)
    { positions := m.1, normals := m.2.1, index := some m.2.2.1 }

/-- Triangle count the binary STL writer serializes: `index.count / 3` for
indexed geometry, `position.count / 3` otherwise. Modelled from the spec's
encoder contract (the `STLExporter` collaborator). -/
def stlTriangleCount (g : BufferGeometry) : ℕ :=
  (match g.index with
   | some idx => idx.length
   | none => g.positions.length) / 3

/-- Modelled from the spec: stands in for the IEEE-754 float32 little-endian
byte encoding of one coordinate. The rational embedding cannot reproduce
float32 bit patterns; only the byte count (4) is load-bearing for the verified
size property, so the four bytes are derived from the rounded value. -/
def f32le (q : ℚ) : List ℕ :=
  [(round q).natAbs % 256, (round q).natAbs / 256 % 256,
   (round q).natAbs / 65536 % 256, if q < 0 then 128 else 0]

/-- Little-endian uint32. -/
def u32le (n : ℕ) : List ℕ := [n % 256, n / 256 % 256, n / 65536 % 256, n / 16777216 % 256]

/-- The 12 bytes of one serialized 3-vector. -/
def vecBytes (v : Vec3) : List ℕ := f32le v.x ++ f32le v.y ++ f32le v.z

/-- Vertex lookup with the `Vec3` zero as out-of-range default. -/
def getVec (l : List Vec3) (i : ℕ) : Vec3 := l.getD i ⟨0, 0, 0⟩

/-- Vertex `j` (0, 1 or 2) of triangle `i`, dereferencing the index buffer when
the geometry is indexed. -/
def triVertex (g : BufferGeometry) (i j : ℕ) : Vec3 :=
  match g.index with
  | some idx => getVec g.positions (idx.getD (3 * i + j) 0)
  | none => getVec g.positions (3 * i + j)

/-- Componentwise difference. -/
def vsub (a b : Vec3) : Vec3 := ⟨a.x - b.x, a.y - b.y, a.z - b.z⟩

/-- Cross product. -/
def vcross (a b : Vec3) : Vec3 :=
  ⟨a.y * b.z - a.z * b.y, a.z * b.x - a.x * b.z, a.x * b.y - a.y * b.x⟩

/-- Modelled from the spec: the facet normal the binary writer emits, computed
from the triangle's edges (normalization to unit length is irrational and does
not affect the byte layout, so it is omitted). -/
def triNormal (g : BufferGeometry) (i : ℕ) : Vec3 :=
  vcross (vsub (triVertex g i 1) (triVertex g i 0)) (vsub (triVertex g i 2) (triVertex g i 0))

/-- One 50-byte triangle record: float32×3 normal, three float32×3 vertices,
and the always-zero uint16 attribute. Modelled from the spec (§4.4). -/
def triRecord (g : BufferGeometry) (i : ℕ) : List ℕ :=
  vecBytes (triNormal g i) ++ vecBytes (triVertex g i 0) ++
    vecBytes (triVertex g i 1) ++ vecBytes (triVertex g i 2) ++ [0, 0]

/-- Modelled from the spec: the binary STL byte stream — 80-byte header (content
not semantically meaningful), little-endian uint32 triangle count, then one
50-byte record per triangle. -/
def encodeSTL (g : BufferGeometry) : List ℕ :=
  List.replicate 80 0 ++ u32le (stlTriangleCount g) ++
    (List.range (stlTriangleCount g)).flatMap (fun i => triRecord g i)

/-- The box collection `exportToSTL` feeds to the merger: the base mesh is
added first, then every left wall, then every up wall. -/
def boxesOf (geometry : ShadowCasterGeometry) : List WallGeometry :=
  geometry.base :: (geometry.leftWalls ++ geometry.upWalls)

/-- Each box becomes a `BoxGeometry(...size)` mesh positioned at the box
centre; `mergeGeometries` clones it and bakes the translation into the
vertices. -/
def geometriesOf (boxes : List WallGeometry) : List BufferGeometry :=
  boxes.map (fun b => translateGeometry b.position (boxGeometry b.size.x b.size.y b.size.z))

/-- The byte-producing core of `exportToSTL`: merge all box meshes and encode
the merged mesh as binary STL. -/
def mergeAndEncode (boxes : List WallGeometry) : List ℕ :=
  encodeSTL (mergeBufferGeometries (geometriesOf boxes))

/-! ## Heap-level model of `ditherImage` (aliasing discipline)

JavaScript `number[]` rows are mutable objects on a heap. To state that
`ditherImage` does not mutate its input, rows are modelled as heap cells
addressed by numeric ids: the input grid is a list of row ids (all below
`nextId`, the allocation watermark), `data.map(row => [...row])` allocates one
fresh row per input row at ids `nextId, nextId+1, …`, and every subsequent
read and write of `dithered[y][x]` in the source addresses the fresh id
`nextId + y`. -/

/-- A heap of row arrays, addressed by id. -/
abbrev RowHeap := ℕ → List ℚ

/-- Replace the row stored at `id`. -/
def heapWrite (H : RowHeap) (id : ℕ) (row : List ℚ) : RowHeap :=
  fun i => if i = id then row else H i

/-- `row[x]` for the row at `id` (0 out of range). -/
def hGet (H : RowHeap) (id x : ℕ) : ℚ := (H id).getD x 0

/-- `row[x] = v` for the row at `id`. -/
def hSet (H : RowHeap) (id x : ℕ) (v : ℚ) : RowHeap := heapWrite H id ((H id).set x v)

/-- `row[x] += d` for the row at `id`. -/
def hAdd (H : RowHeap) (id x : ℕ) (d : ℚ) : RowHeap := hSet H id x (hGet H id x + d)

/-- Heap-level rendering of the `ditherImage` loop body: all accesses address
the freshly allocated rows `nextId + y`. -/
def ditherStepHeap (stp : ℚ) (width height nextId : ℕ) (H : RowHeap) (y x : ℕ) : RowHeap :=
  let oldPixel := hGet H (nextId + y) x
  let newPixel := ((round (oldPixel / stp) : ℤ) : ℚ) * stp
  let H1 := hSet H (nextId + y) x newPixel
  let error := oldPixel - newPixel
  let H2 := if x + 1 < width then hAdd H1 (nextId + y) (x + 1) (error * 7 / 16) else H1
  if y + 1 < height then
    let H3 := if 1 ≤ x then hAdd H2 (nextId + (y + 1)) (x - 1) (error * 3 / 16) else H2
    let H4 := hAdd H3 (nextId + (y + 1)) x (error * 5 / 16)
    if x + 1 < width then hAdd H4 (nextId + (y + 1)) (x + 1) (error * 1 / 16) else H4
  else H2

/-- `const dithered = data.map(row => [...row])`: allocate one fresh row per
input row at ids `nextId + y`, copying the contents of input row `y`. -/
def allocCopy (H : RowHeap) (rowIds : List ℕ) (nextId : ℕ) : RowHeap :=
  (List.range rowIds.length).foldl (fun H y => heapWrite H (nextId + y) (H (rowIds.getD y 0))) H

/-- Heap-level `ditherImage`: copy the input rows to fresh ids, run the
dithering loop on the fresh rows, and return the new heap together with the
ids of the freshly allocated result grid. -/
def ditherImageHeap (H : RowHeap) (rowIds : List ℕ) (width height numberOfColors nextId : ℕ) :
    RowHeap × List ℕ :=
  let levels : ℚ := (numberOfColors : ℚ) - 1
  let stp : ℚ := 255 / levels
  let H0 := allocCopy H rowIds nextId
  let H1 := (List.range height).foldl
    (fun H y => (List.range width).foldl (fun H x => ditherStepHeap stp width height nextId H y x) H) H0
  (H1, (List.range rowIds.length).map (nextId + ·))

/-! ## Verification -/

section Proofs

attribute [local semireducible] Rat.add Rat.mul Rat.inv Rat.sub Rat.ofScientific

/-- `round` is monotone (both `Math.round` and Mathlib's `round` are `⌊x + 1/2⌋`). -/
theorem round_mono_q {a b : ℚ} (h : a ≤ b) : round a ≤ round b := by
  rw [round_eq, round_eq]
  exact Int.floor_le_floor (by linarith)

/-- Parameters violating the §3 invariant `wallWidth < cellSize`
(`cellSize = 0.4 < wallWidth = 0.5`), driving the resolved colour count negative. -/
def c3BadParams : ImageConfig :=
  { defaultConfig with
    cellSize := 2/5
    wallWidth := 1/2
    layerHeight := 1/10
    numberOfColorsOverride := 0 }

/-- C3 counterexample: on parameters violating the data-model invariants,
`computeImageConfig` does not fail with `InvalidParameter` — it returns a
resolved record whose `numberOfColors` is `-1 < 1`, the invariant violated. -/
theorem c3_counterexample :
    (computeImageConfig c3BadParams).numberOfColors = -1 ∧
      (computeImageConfig c3BadParams).numberOfColors < 1 := by
  constructor
  · decide
  · decide

/-- C3 (amended): `computeImageConfig` performs no validation at all. For every
parameter record — including records violating the §3 invariants — it returns a
resolved config whose derived fields are computed by the source formulas and
whose inherited fields are the inputs unchanged; it never fails and never
clamps. -/
theorem c3_amended_no_validation (params : ImageConfig) :
    (computeImageConfig params).numberOfColors =
      (if params.numberOfColorsOverride = 0 then
        ⌊(params.cellSize - params.wallWidth) / params.layerHeight⌋
      else params.numberOfColorsOverride) ∧
    (computeImageConfig params).maxHeight =
      ((computeImageConfig params).numberOfColors : ℚ) * params.layerHeight ∧
    (computeImageConfig params).border = params.cellSize ∧
    (computeImageConfig params).toImageConfig = params :=
  ⟨rfl, rfl, rfl, rfl⟩

/-- The Scenario C parameters: `numberOfColorsOverride = 0`, `cellSize = 2.1`,
`wallWidth = 0.4`, `layerHeight = 0.1`. -/
def scenarioCParams : ImageConfig :=
  { defaultConfig with
    numberOfColorsOverride := 0
    cellSize := 21/10
    wallWidth := 2/5
    layerHeight := 1/10 }

/-- C8: with `numberOfColorsOverride = 0` the resolver computes
`numberOfColors = floor((cellSize - wallWidth) / layerHeight)`; at the Scenario
C parameters this is `floor((2.1 - 0.4)/0.1) = 17`. -/
theorem c8_auto_color_count :
    (∀ params : ImageConfig, params.numberOfColorsOverride = 0 →
      (computeImageConfig params).numberOfColors =
        ⌊(params.cellSize - params.wallWidth) / params.layerHeight⌋) ∧
    (computeImageConfig scenarioCParams).numberOfColors = 17 := by
  constructor
  · intro params h
    simp only [computeImageConfig, h, if_pos]
  · decide

/-- Witness for C8 at the Scenario C parameters. -/
theorem c8_witness :
    scenarioCParams.numberOfColorsOverride = 0 ∧
      (computeImageConfig scenarioCParams).numberOfColors =
        ⌊(scenarioCParams.cellSize - scenarioCParams.wallWidth) / scenarioCParams.layerHeight⌋ :=
  ⟨rfl, c8_auto_color_count.1 scenarioCParams rfl⟩

/-- C9 counterexample: trailing zeros are not trimmed. On `defaultConfig`
(`cellSize = 2.1`, `wallWidth = 0.4`, `bottomThk = 0.8`, `maxHeight = 1.7`) the
generated filename renders every non-integer with exactly two decimals
(`0.40wall`, not `0.4wall`), so the claimed trimmed-zeros filename is not
produced. -/
theorem c9_counterexample :
    (computeImageConfig defaultConfig).outputFilename =
      "100px_2.10cell_0.40wall_0.80bottom_1.70maxHeight.stl" ∧
    (computeImageConfig defaultConfig).outputFilename ≠
      "100px_2.1cell_0.4wall_0.8bottom_1.7maxHeight.stl" := by
  constructor
  · decide
  · decide

/-- C9 (amended): the generated filename follows the pattern
`{widthInPixels}px_{cellSize}cell_{wallWidth}wall_{bottomThk}bottom_{maxHeight}maxHeight.stl`
where each numeric field is rendered by `format`: integers with no decimal
digits, non-integers with exactly two decimal digits — trailing zeros are kept
(`format 0.4 = "0.40"`), not trimmed. -/
theorem c9_amended_filename_pattern (params : ImageConfig) :
    (computeImageConfig params).outputFilename =
      toString params.widthInPixels ++ "px_" ++ format params.cellSize ++ "cell_" ++
        format params.wallWidth ++ "wall_" ++ format params.bottomThk ++ "bottom_" ++
        format (computeImageConfig params).maxHeight ++ "maxHeight.stl" ∧
    format (2/5 : ℚ) = "0.40" :=
  ⟨rfl, by decide⟩

/-- C7: under the data-model invariants (`layerHeight > 0` and
`numberOfColors ≥ 1`, i.e. `layerHeight ≤ maxHeight`), the per-pixel wall
height is antitone in brightness: for `v1 < v2` in `[0, 255]`,
`wallHeight(v1) ≥ wallHeight(v2)` — a darker pixel never yields a shorter
wall. -/
theorem c7_wall_height_antitone (config : ComputedImageConfig) (v1 v2 : ℚ)
    (h0 : 0 ≤ v1) (h12 : v1 < v2) (h255 : v2 ≤ 255)
    (hL : 0 < config.layerHeight) (hM : config.layerHeight ≤ config.maxHeight) :
    wallHeight config v2 ≤ wallHeight config v1 := by
  unfold wallHeight roundToLayerHeight
  have hM0 : (0 : ℚ) ≤ config.maxHeight - config.layerHeight := by linarith
  have h1 : (1 - v2 / 256) ≤ (1 - v1 / 256) := by linarith
  have h2 : (1 - v2 / 256) * (config.maxHeight - config.layerHeight) ≤
      (1 - v1 / 256) * (config.maxHeight - config.layerHeight) :=
    mul_le_mul_of_nonneg_right h1 hM0
  have h3 : (1 - v2 / 256) * (config.maxHeight - config.layerHeight) / config.layerHeight ≤
      (1 - v1 / 256) * (config.maxHeight - config.layerHeight) / config.layerHeight :=
    (div_le_div_iff_of_pos_right hL).mpr h2
  have h4 := round_mono_q h3
  have h5 : ((round ((1 - v2 / 256) * (config.maxHeight - config.layerHeight) /
      config.layerHeight) : ℤ) : ℚ) ≤
      ((round ((1 - v1 / 256) * (config.maxHeight - config.layerHeight) /
      config.layerHeight) : ℤ) : ℚ) := by exact_mod_cast h4
  exact mul_le_mul_of_nonneg_right h5 (le_of_lt hL)

/-- Witness for C7: `defaultConfig` resolves to `layerHeight = 0.1`,
`maxHeight = 1.7`; a black pixel (0) gets a wall at least as tall as a white
pixel (255). -/
theorem c7_witness :
    (0 : ℚ) ≤ 0 ∧ (0 : ℚ) < 255 ∧ (255 : ℚ) ≤ 255 ∧
      0 < (computeImageConfig defaultConfig).layerHeight ∧
      (computeImageConfig defaultConfig).layerHeight ≤
        (computeImageConfig defaultConfig).maxHeight ∧
      wallHeight (computeImageConfig defaultConfig) 255 ≤
        wallHeight (computeImageConfig defaultConfig) 0 :=
  ⟨le_refl 0, by decide, le_refl 255, by decide, by decide,
    c7_wall_height_antitone (computeImageConfig defaultConfig) 0 255 (le_refl 0)
      (by decide) (le_refl 255) (by decide) (by decide)⟩

/-- The wall lists are built by a row-major double loop: their length is
`height * width`. -/
theorem length_flatMap_range {α : Type} (w : ℕ) (f : ℕ → ℕ → α) :
    ∀ h : ℕ, ((List.range h).flatMap (fun y => (List.range w).map (f y))).length = h * w := by
  intro h
  induction h with
  | zero => simp
  | succ k ih =>
    rw [List.range_succ, List.flatMap_append, List.length_append, ih]
    simp [Nat.succ_mul]

/-- Element `y * w + x` of the row-major double loop output is the wall of
pixel `(x, y)`. -/
theorem getElem?_flatMap_range {α : Type} (w : ℕ) (f : ℕ → ℕ → α) :
    ∀ h y x : ℕ, y < h → x < w →
      ((List.range h).flatMap (fun y => (List.range w).map (f y)))[y * w + x]? = some (f y x) := by
  intro h
  induction h with
  | zero => intro y x hy _; exact absurd hy (Nat.not_lt_zero y)
  | succ k ih =>
    intro y x hy hx
    rw [List.range_succ, List.flatMap_append, List.getElem?_append]
    rcases Nat.lt_or_ge y k with hyk | hyk
    · have hlt : y * w + x < ((List.range k).flatMap
          (fun y => (List.range w).map (f y))).length := by
        rw [length_flatMap_range w f k]
        calc y * w + x < y * w + w := by omega
        _ = (y + 1) * w := by ring
        _ ≤ k * w := Nat.mul_le_mul_right w hyk
      rw [if_pos hlt]
      exact ih y x hyk hx
    · have hyek : y = k := by omega
      subst hyek
      have hlen : ((List.range y).flatMap
          (fun y => (List.range w).map (f y))).length = y * w := length_flatMap_range w f y
      rw [if_neg (by omega), hlen]
      have hidx : y * w + x - y * w = x := by omega
      rw [hidx]
      simp [List.getElem?_map, List.getElem?_range hx]

/-- A 2×2 diagonal test grid. -/
def c1Grid : ProcessedImageData := { data := [[0, 255], [255, 0]], width := 2, height := 2 }

/-- A resolved config with both image axes disabled. -/
def c1OffConfig : ComputedImageConfig :=
  computeImageConfig
    { defaultConfig with
      doHorizImage := false
      doVertImage := false }

/-- C1 counterexample: with `doHorizImage` and `doVertImage` both false the
synthesizer does not fail with `InvalidParameter` — `generateShadowCasterGeometry`
is a total function with no failure path, and here it returns a result
containing only the base slab (both wall lists empty, the base being the
`bottomThk`-thick slab). -/
theorem c1_counterexample :
    (generateShadowCasterGeometry (some c1Grid) (some c1Grid) c1OffConfig).leftWalls = [] ∧
    (generateShadowCasterGeometry (some c1Grid) (some c1Grid) c1OffConfig).upWalls = [] ∧
    (generateShadowCasterGeometry (some c1Grid) (some c1Grid) c1OffConfig).base.size.z =
      c1OffConfig.bottomThk := by
  refine ⟨by decide, by decide, by decide⟩

/-- C1 (amended): whenever an axis is disabled or its grid is absent, the
synthesizer silently succeeds with an empty wall list for that axis; in
particular with both axes disabled (or both grids absent) it returns a
base-only result — it never fails. -/
theorem c1_amended_base_only (od ov : Option ProcessedImageData) (cfg : ComputedImageConfig)
    (hH : cfg.doHorizImage = false ∨ od = none)
    (hV : cfg.doVertImage = false ∨ ov = none) :
    (generateShadowCasterGeometry od ov cfg).leftWalls = [] ∧
    (generateShadowCasterGeometry od ov cfg).upWalls = [] := by
  constructor
  · rcases hH with h | h
    · cases od <;> simp [generateShadowCasterGeometry, h]
    · subst h; simp [generateShadowCasterGeometry]
  · rcases hV with h | h
    · cases ov <;> simp [generateShadowCasterGeometry, h]
    · subst h; simp [generateShadowCasterGeometry]

/-- Witness for C1 at a concrete disabled-axes input. -/
theorem c1_witness :
    (generateShadowCasterGeometry (some c1Grid) none c1OffConfig).leftWalls = [] ∧
    (generateShadowCasterGeometry (some c1Grid) none c1OffConfig).upWalls = [] :=
  c1_amended_base_only (some c1Grid) none c1OffConfig (Or.inl rfl) (Or.inr rfl)

/-- C6: the synthesizer emits exactly one wall per pixel of each enabled axis
(`width * height` of that axis's own grid) and an empty list for a disabled or
absent axis; the output record carries exactly one base slab by construction. -/
theorem c6_box_count_invariant (od ov : Option ProcessedImageData) (cfg : ComputedImageConfig) :
    (generateShadowCasterGeometry od ov cfg).leftWalls.length =
      (match od, cfg.doHorizImage with
       | some d, true => d.width * d.height
       | _, _ => 0) ∧
    (generateShadowCasterGeometry od ov cfg).upWalls.length =
      (match ov, cfg.doVertImage with
       | some d, true => d.width * d.height
       | _, _ => 0) := by
  constructor
  · cases od with
    | none => simp [generateShadowCasterGeometry]
    | some d =>
      cases hcfg : cfg.doHorizImage with
      | false => simp [generateShadowCasterGeometry, hcfg]
      | true =>
        simp only [generateShadowCasterGeometry, hcfg, if_true]
        rw [length_flatMap_range]
        exact Nat.mul_comm d.height d.width
  · cases ov with
    | none => simp [generateShadowCasterGeometry]
    | some d =>
      cases hcfg : cfg.doVertImage with
      | false => simp [generateShadowCasterGeometry, hcfg]
      | true =>
        simp only [generateShadowCasterGeometry, hcfg, if_true]
        rw [length_flatMap_range]
        exact Nat.mul_comm d.height d.width

/-- Horizontal-axis grid of width 1 and height 2 (taller than the vertical grid). -/
def c2HorizGrid : ProcessedImageData := { data := [[0], [255]], width := 1, height := 2 }

/-- Vertical-axis grid of width 1 and height 1. -/
def c2VertGrid : ProcessedImageData := { data := [[128]], width := 1, height := 1 }

/-- A resolved config with both axes enabled, `cellSize = 1`, `border = 1`. -/
def c2Config : ComputedImageConfig :=
  { horizImageFilename := "h.png"
    vertImageFilename := "v.png"
    widthInPixels := 1
    doHorizImage := true
    doVertImage := true
    cellSize := 1
    wallWidth := 1/5
    bottomThk := 1
    layerHeight := 1/10
    numberOfColorsOverride := 0
    maxHeight := 1
    numberOfColors := 8
    border := 1
    outputFilename := "t.stl"
    shouldDoPlusWalls := false }

/-- C2 counterexample: with both axes active and grid heights 2 (horizontal)
and 1 (vertical), the cropped common height would be `endY = min 2 1 = 1`, so
the claim predicts `1 * 1 = 1` left wall with `posY = border + (endY - 0) *
cellSize = 2`. The code crops nothing: it emits 2 left walls and places the
first at `posY = border + (2 - 0) * cellSize = 3`. -/
theorem c2_counterexample :
    (generateShadowCasterGeometry (some c2HorizGrid) (some c2VertGrid) c2Config).leftWalls.length
      = 2 ∧
    (2 : ℕ) ≠ c2HorizGrid.width * min c2HorizGrid.height c2VertGrid.height ∧
    ((generateShadowCasterGeometry (some c2HorizGrid) (some c2VertGrid) c2Config).leftWalls.map
      (fun wl => wl.position.y)).head? = some 3 ∧
    (3 : ℚ) ≠ c2Config.border +
      ((min c2HorizGrid.height c2VertGrid.height : ℕ) : ℚ) * c2Config.cellSize := by
  refine ⟨by decide, by decide, by decide, by decide⟩

/-- C2 (amended): `generateShadowCasterGeometry` performs no cropping. Each
axis iterates its own grid's full `height × width` range, and the wall of pixel
`(x, y)` uses that axis's own grid height: `posY = border + (ownHeight - y) *
cellSize` (for up walls, when the plus-walls offset is disabled, as it always
is at runtime since the TS config interface lacks the field). Wall rows
therefore do not correspond 1:1 across axes when the grid heights differ. -/
theorem c2_amended_no_cropping (dH dV : ProcessedImageData) (cfg : ComputedImageConfig)
    (hH : cfg.doHorizImage = true) (hV : cfg.doVertImage = true)
    (hPlus : cfg.shouldDoPlusWalls = false)
    (y x : ℕ) (hy : y < dH.height) (hx : x < dH.width)
    (y' x' : ℕ) (hy' : y' < dV.height) (hx' : x' < dV.width) :
    (generateShadowCasterGeometry (some dH) (some dV) cfg).leftWalls.length =
      dH.height * dH.width ∧
    (generateShadowCasterGeometry (some dH) (some dV) cfg).upWalls.length =
      dV.height * dV.width ∧
    (generateShadowCasterGeometry (some dH) (some dV) cfg).leftWalls[y * dH.width + x]? =
      some (mkLeftWall cfg dH y x) ∧
    (mkLeftWall cfg dH y x).position.y =
      cfg.border + ((dH.height : ℚ) - (y : ℚ)) * cfg.cellSize ∧
    (generateShadowCasterGeometry (some dH) (some dV) cfg).upWalls[y' * dV.width + x']? =
      some (mkUpWall cfg dV y' x') ∧
    (mkUpWall cfg dV y' x').position.y =
      cfg.border + ((dV.height : ℚ) - (y' : ℚ)) * cfg.cellSize := by
  refine ⟨?_, ?_, ?_, ?_, ?_, ?_⟩
  · simp only [generateShadowCasterGeometry, hH, if_true]
    exact length_flatMap_range dH.width (fun y x => mkLeftWall cfg dH y x) dH.height
  · simp only [generateShadowCasterGeometry, hV, if_true]
    exact length_flatMap_range dV.width (fun y x => mkUpWall cfg dV y x) dV.height
  · simp only [generateShadowCasterGeometry, hH, if_true]
    exact getElem?_flatMap_range dH.width (fun y x => mkLeftWall cfg dH y x) dH.height y x hy hx
  · simp [mkLeftWall]
  · simp only [generateShadowCasterGeometry, hV, if_true]
    exact getElem?_flatMap_range dV.width (fun y x => mkUpWall cfg dV y x) dV.height y' x' hy' hx'
  · simp [mkUpWall, hPlus]

/-- Witness for C2 (amended) at the concrete differing-height grids:
left-wall pixel `(0, 1)` and up-wall pixel `(0, 0)`. -/
theorem c2_witness :
    (generateShadowCasterGeometry (some c2HorizGrid) (some c2VertGrid) c2Config).leftWalls.length =
      c2HorizGrid.height * c2HorizGrid.width ∧
    (generateShadowCasterGeometry (some c2HorizGrid) (some c2VertGrid) c2Config).upWalls.length =
      c2VertGrid.height * c2VertGrid.width ∧
    (generateShadowCasterGeometry (some c2HorizGrid) (some c2VertGrid)
        c2Config).leftWalls[1 * c2HorizGrid.width + 0]? =
      some (mkLeftWall c2Config c2HorizGrid 1 0) ∧
    (mkLeftWall c2Config c2HorizGrid 1 0).position.y =
      c2Config.border + ((c2HorizGrid.height : ℚ) - (1 : ℚ)) * c2Config.cellSize ∧
    (generateShadowCasterGeometry (some c2HorizGrid) (some c2VertGrid)
        c2Config).upWalls[0 * c2VertGrid.width + 0]? =
      some (mkUpWall c2Config c2VertGrid 0 0) ∧
    (mkUpWall c2Config c2VertGrid 0 0).position.y =
      c2Config.border + ((c2VertGrid.height : ℚ) - (0 : ℚ)) * c2Config.cellSize := by
  have h := c2_amended_no_cropping c2HorizGrid c2VertGrid c2Config rfl rfl rfl
    1 0 (by decide) (by decide) 0 0 (by decide) (by decide)
  exact_mod_cast h

/-- Every serialized triangle record is exactly 50 bytes. -/
theorem length_triRecord (g : BufferGeometry) (i : ℕ) : (triRecord g i).length = 50 := by
  simp [triRecord, vecBytes, f32le]

/-- Summing a constant-valued map. -/
theorem sum_map_const_of {α : Type} (f : α → ℕ) (c : ℕ) (H : ∀ a, f a = c) :
    ∀ l : List α, (l.map f).sum = c * l.length := by
  intro l
  induction l with
  | nil => simp
  | cons a l ih => simp [ih, H a, Nat.mul_succ, Nat.add_comm]

/-- The encoded byte stream is `80 + 4` header/count bytes plus 50 bytes per
triangle. -/
theorem length_encodeSTL (g : BufferGeometry) :
    (encodeSTL g).length = 84 + 50 * stlTriangleCount g := by
  simp only [encodeSTL, List.length_append, List.length_replicate, u32le,
    List.length_flatMap]
  rw [sum_map_const_of (List.length ∘ fun i => triRecord g i) 50
    (fun i => length_triRecord g i) (List.range (stlTriangleCount g))]
  simp only [List.length_range, List.length_cons, List.length_nil]

/-- A geometry whose triangle index has exactly 36 entries (12 triangles). -/
def hasBoxIndex (g : BufferGeometry) : Prop := ∃ l, g.index = some l ∧ l.length = 36

/-- The merging fold accumulates 36 index entries per merged box geometry. -/
theorem fold_mergeStep_index_length :
    ∀ (gs : List BufferGeometry) (acc : List Vec3 × List Vec3 × List ℕ × ℕ),
      (∀ g ∈ gs, hasBoxIndex g) →
      (gs.foldl mergeStep acc).2.2.1.length = acc.2.2.1.length + 36 * gs.length := by
  intro gs
  induction gs with
  | nil => intro acc _; simp
  | cons g gs ih =>
    intro acc H
    obtain ⟨l, hidx, hlen⟩ := H g (List.mem_cons_self g gs)
    rw [List.foldl_cons, ih (mergeStep acc g) (fun g' hg' => H g' (List.mem_cons_of_mem g hg'))]
    simp only [mergeStep, hidx, List.length_append, List.length_map, hlen, List.length_cons]
    ring

/-- Every geometry produced for a box is an indexed 12-triangle cuboid. -/
theorem hasBoxIndex_geometriesOf (boxes : List WallGeometry) :
    ∀ g ∈ geometriesOf boxes, hasBoxIndex g := by
  intro g hg
  simp only [geometriesOf, List.mem_map] at hg
  obtain ⟨b, _, rfl⟩ := hg
  exact ⟨boxIndex, rfl, by decide⟩

/-- C5: for every non-empty box collection, merging yields `12 * boxes.length`
triangles and the binary STL byte stream has length exactly
`80 + 4 + 50 * N` with `N = 12 * boxes.length`. -/
theorem c5_stl_byte_size (boxes : List WallGeometry) (hne : boxes ≠ []) :
    stlTriangleCount (mergeBufferGeometries (geometriesOf boxes)) = 12 * boxes.length ∧
    (mergeAndEncode boxes).length = 80 + 4 + 50 * (12 * boxes.length) := by
  have hcount : stlTriangleCount (mergeBufferGeometries (geometriesOf boxes)) =
      12 * boxes.length := by
    match boxes, hne with
    | [b], _ =>
      simp only [geometriesOf, List.map_cons, List.map_nil, mergeBufferGeometries,
        stlTriangleCount, translateGeometry, boxGeometry]
      have h36 : boxIndex.length = 36 := by decide
      simp [h36]
    | b1 :: b2 :: rest, _ =>
      have hgood := hasBoxIndex_geometriesOf (b1 :: b2 :: rest)
      have hfold := fold_mergeStep_index_length (geometriesOf (b1 :: b2 :: rest))
        ([], [], [], 0) hgood
      simp only [geometriesOf, List.map_cons] at hfold ⊢
      simp only [mergeBufferGeometries, stlTriangleCount, hfold]
      simp only [List.length_nil, List.length_cons, List.length_map, Nat.zero_add]
      omega
  refine ⟨hcount, ?_⟩
  unfold mergeAndEncode
  rw [length_encodeSTL, hcount]

/-- Scenario B horizontal grid: the 2×2 diagonal `[[0,255],[255,0]]`. -/
def scenarioBHoriz : ProcessedImageData :=
  { data := [[0, 255], [255, 0]], width := 2, height := 2 }

/-- Scenario B vertical grid: the opposite diagonal `[[255,0],[0,255]]`. -/
def scenarioBVert : ProcessedImageData :=
  { data := [[255, 0], [0, 255]], width := 2, height := 2 }

/-- The Scenario B config (the dual-image end-to-end test's literal:
`cellSize = 5`, `wallWidth = 0.8`, `maxHeight = 2`, `layerHeight = 0.2`,
`bottomThk = 1`, `border = 0`, both axes enabled). -/
def scenarioBConfig : ComputedImageConfig :=
  { horizImageFilename := "test-horiz.png"
    vertImageFilename := "test-vert.png"
    widthInPixels := 2
    doHorizImage := true
    doVertImage := true
    cellSize := 5
    wallWidth := 4/5
    bottomThk := 1
    layerHeight := 1/5
    numberOfColorsOverride := 0
    maxHeight := 2
    numberOfColors := 11
    border := 0
    outputFilename := "test-dual-diagonal-2x2.stl"
    shouldDoPlusWalls := false }

/-- The box collection `exportToSTL` receives for the Scenario B scene:
1 base + 4 left walls + 4 up walls. -/
def scenarioBBoxes : List WallGeometry :=
  boxesOf (generateShadowCasterGeometry (some scenarioBHoriz) (some scenarioBVert) scenarioBConfig)

/-- Witness for C5 at the Scenario B scene: 9 boxes, 108 triangles,
5484 bytes. -/
theorem c5_witness :
    scenarioBBoxes.length = 9 ∧
    stlTriangleCount (mergeBufferGeometries (geometriesOf scenarioBBoxes)) = 108 ∧
    (mergeAndEncode scenarioBBoxes).length = 5484 := by
  have h1 : scenarioBBoxes.length = 9 := by decide
  have h := c5_stl_byte_size scenarioBBoxes (List.cons_ne_nil _ _)
  refine ⟨h1, ?_, ?_⟩
  · rw [h.1, h1]
  · rw [h.2, h1]

/-- Writing a freshly allocated row (id ≥ `nextId`) leaves every pre-existing
id (< `nextId`) untouched. -/
theorem hSet_fresh_preserves {nextId i : ℕ} (hi : i < nextId) (G : RowHeap) (y' x' : ℕ)
    (v : ℚ) : hSet G (nextId + y') x' v i = G i := by
  simp only [hSet, heapWrite]
  rw [if_neg (by omega)]

/-- `+=` on a freshly allocated row leaves every pre-existing id untouched. -/
theorem hAdd_fresh_preserves {nextId i : ℕ} (hi : i < nextId) (G : RowHeap) (y' x' : ℕ)
    (d : ℚ) : hAdd G (nextId + y') x' d i = G i :=
  hSet_fresh_preserves hi G y' x' _

/-- One dithering step only writes rows at ids `nextId + y`. -/
theorem ditherStepHeap_preserves {nextId i : ℕ} (hi : i < nextId) (stp : ℚ) (w h : ℕ)
    (G : RowHeap) (y x : ℕ) : ditherStepHeap stp w h nextId G y x i = G i := by
  simp only [ditherStepHeap]
  split_ifs <;>
    simp only [hAdd_fresh_preserves hi, hSet_fresh_preserves hi]

/-- Folding heap transformers that each preserve id `i` preserves id `i`. -/
theorem foldl_preserves {β : Type} {i : ℕ} (step : RowHeap → β → RowHeap)
    (pres : ∀ G b, step G b i = G i) :
    ∀ (l : List β) (G : RowHeap), (l.foldl step G) i = G i := by
  intro l
  induction l with
  | nil => intro G; rfl
  | cons b l ih => intro G; rw [List.foldl_cons, ih, pres]

/-- The copying allocation only writes rows at ids `nextId + y`. -/
theorem allocCopy_preserves {nextId i : ℕ} (hi : i < nextId) (H : RowHeap)
    (rowIds : List ℕ) : allocCopy H rowIds nextId i = H i := by
  unfold allocCopy
  exact foldl_preserves _
    (fun G y => by simp only [heapWrite]; rw [if_neg (by omega)]) _ H

/-- C10: `ditherImage` does not mutate the input grid. In the heap model the
copy `data.map(row => [...row])` allocates fresh rows at ids `nextId + y` and
every subsequent write of the dithering loop addresses only those fresh rows,
so after the call every input row id still holds exactly its original
contents. -/
theorem c10_input_not_mutated (H : RowHeap) (rowIds : List ℕ) (w h n nextId : ℕ)
    (hfresh : ∀ r ∈ rowIds, r < nextId) (r : ℕ) (hr : r ∈ rowIds) :
    (ditherImageHeap H rowIds w h n nextId).1 r = H r := by
  have hi : r < nextId := hfresh r hr
  have hinner : ∀ (G : RowHeap) (y : ℕ),
      List.foldl (fun G' x => ditherStepHeap (255 / ((n : ℚ) - 1)) w h nextId G' y x)
        G (List.range w) r = G r :=
    fun G y => @foldl_preserves ℕ r _
      (fun G' x => ditherStepHeap_preserves hi _ _ _ G' y x) (List.range w) G
  have houter := @foldl_preserves ℕ r
    (fun G y => List.foldl (fun G' x => ditherStepHeap (255 / ((n : ℚ) - 1)) w h nextId G' y x)
      G (List.range w)) hinner (List.range h) (allocCopy H rowIds nextId)
  exact Eq.trans houter (allocCopy_preserves hi H rowIds)

/-- A concrete two-row input heap (rows `[128, 64]` and `[192, 32]` at ids 0
and 1; the allocation watermark is 2). -/
def c10Heap : RowHeap := fun i => if i = 0 then [128, 64] else if i = 1 then [192, 32] else []

/-- Witness for C10: dithering the 2×2 grid at ids `[0, 1]` with 3 colours
leaves both input rows intact. -/
theorem c10_witness :
    (ditherImageHeap c10Heap [0, 1] 2 2 3 2).1 0 = c10Heap 0 ∧
    (ditherImageHeap c10Heap [0, 1] 2 2 3 2).1 1 = c10Heap 1 :=
  ⟨c10_input_not_mutated c10Heap [0, 1] 2 2 3 2 (by decide) 0 (by decide),
   c10_input_not_mutated c10Heap [0, 1] 2 2 3 2 (by decide) 1 (by decide)⟩

/-- A 1×1 grid holding the mid-grey value 128. -/
def c4Grid : ProcessedImageData := { data := [[128]], width := 1, height := 1 }

/-- C4 counterexample: dithering `[[128]]` with `numberOfColors = 3`
(`step = 127.5`) yields the exact level `255/2 = 127.5`, which is not a member
of the claimed integer-rounded level set
`{round(k*255/2) : k = 0, 1, 2} = {0, 128, 255}` — the code quantizes to exact
rational multiples of `step` and never rounds levels to integers. -/
theorem c4_counterexample :
    getCell (ditherImage c4Grid 3).data 0 0 = 255 / 2 ∧
    (255 / 2 : ℚ) ≠ ((round ((0 : ℚ) * 255 / 2) : ℤ) : ℚ) ∧
    (255 / 2 : ℚ) ≠ ((round ((1 : ℚ) * 255 / 2) : ℤ) : ℚ) ∧
    (255 / 2 : ℚ) ≠ ((round ((2 : ℚ) * 255 / 2) : ℤ) : ℚ) :=
  ⟨by decide, by decide, by decide, by decide⟩

/-- Row-major single-index view of the dithering loop: cell `m` is pixel
`(m % w, m / w)`. -/
def processUpTo (stp : ℚ) (w h : ℕ) (g0 : Grid) : ℕ → Grid
  | 0 => g0
  | m + 1 => ditherStep stp w h (processUpTo stp w h g0 m) (m / w) (m % w)

theorem foldl_range_succ {α : Type} (f : α → ℕ → α) (a : α) (n : ℕ) :
    (List.range (n + 1)).foldl f a = f ((List.range n).foldl f a) n := by
  rw [List.range_succ, List.foldl_append, List.foldl_cons, List.foldl_nil]

/-- One inner (`x`) loop advances the single-index process by one row prefix. -/
theorem inner_loop_eq (stp : ℚ) (w h : ℕ) (g0 : Grid) (y : ℕ) :
    ∀ k, k ≤ w →
      (List.range k).foldl (fun g x => ditherStep stp w h g y x)
        (processUpTo stp w h g0 (y * w)) = processUpTo stp w h g0 (y * w + k) := by
  intro k
  induction k with
  | zero => intro _; rfl
  | succ j ih =>
    intro hk
    have hjw : j < w := hk
    rw [foldl_range_succ, ih (Nat.le_of_lt hjw)]
    have h1 : (y * w + j) / w = y := by
      rw [Nat.mul_comm, Nat.add_comm, Nat.add_mul_div_left j y (Nat.lt_of_le_of_lt (Nat.zero_le j) hjw),
        Nat.div_eq_of_lt hjw, Nat.zero_add]
    have h2 : (y * w + j) % w = j := by
      rw [Nat.mul_comm, Nat.add_comm, Nat.add_mul_mod_self_left, Nat.mod_eq_of_lt hjw]
    show ditherStep stp w h (processUpTo stp w h g0 (y * w + j)) y j =
      processUpTo stp w h g0 ((y * w + j) + 1)
    rw [processUpTo, h1, h2]

/-- The outer (`y`) loop advances the single-index process row by row. -/
theorem outer_loop_eq (stp : ℚ) (w h : ℕ) (g0 : Grid) :
    ∀ j, j ≤ h →
      (List.range j).foldl
        (fun g y => (List.range w).foldl (fun g x => ditherStep stp w h g y x) g) g0 =
      processUpTo stp w h g0 (j * w) := by
  intro j
  induction j with
  | zero => intro _; rw [Nat.zero_mul]; rfl
  | succ i ih =>
    intro hj
    rw [foldl_range_succ, ih (Nat.le_of_succ_le hj)]
    rw [inner_loop_eq stp w h g0 i w (Nat.le_refl w)]
    rw [Nat.succ_mul]

/-- The nested dithering loops equal the single-index process run to
completion. -/
theorem ditherLoop_eq_processUpTo (stp : ℚ) (w h : ℕ) (g0 : Grid) :
    ditherLoop stp w h g0 = processUpTo stp w h g0 (h * w) :=
  outer_loop_eq stp w h g0 h (Nat.le_refl h)

/-- Well-formedness of a grid: `h` rows of `w` entries each. -/
def gridDims (w h : ℕ) (g : Grid) : Prop :=
  g.length = h ∧ ∀ row ∈ g, row.length = w

theorem getD_set_ne {α : Type} (l : List α) (i j : ℕ) (a d : α) (hij : i ≠ j) :
    (l.set i a).getD j d = l.getD j d := by
  rw [List.getD_eq_getElem?_getD, List.getD_eq_getElem?_getD, List.getElem?_set, if_neg hij]

theorem getD_set_self {α : Type} (l : List α) (i : ℕ) (a d : α) (hi : i < l.length) :
    (l.set i a).getD i d = a := by
  rw [List.getD_eq_getElem?_getD, List.getElem?_set, if_pos rfl, if_pos hi, Option.getD_some]

theorem getD_out_of_range {α : Type} (l : List α) (i : ℕ) (d : α) (hi : l.length ≤ i) :
    l.getD i d = d := by
  rw [List.getD_eq_getElem?_getD, List.getElem?_eq_none (by simpa using hi), Option.getD_none]

/-- In a well-formed grid every in-range row has length `w`. -/
theorem getRow_length {w h : ℕ} {g : Grid} (hg : gridDims w h g) {y : ℕ} (hy : y < h) :
    (g.getD y []).length = w := by
  rw [List.getD_eq_getElem _ _ (hg.1 ▸ hy)]
  exact hg.2 _ (List.getElem_mem _)

/-- `setCell` preserves well-formedness (for an in-range target row). -/
theorem gridDims_setCell {w h : ℕ} {g : Grid} (hg : gridDims w h g) {y : ℕ} (hy : y < h)
    (x : ℕ) (v : ℚ) : gridDims w h (setCell g y x v) := by
  refine ⟨by rw [setCell, List.length_set]; exact hg.1, ?_⟩
  intro row hrow
  rcases List.mem_or_eq_of_mem_set hrow with hmem | heq
  · exact hg.2 row hmem
  · rw [heq, List.length_set]
    exact getRow_length hg hy

/-- `addCell` preserves well-formedness (for an in-range target row). -/
theorem gridDims_addCell {w h : ℕ} {g : Grid} (hg : gridDims w h g) {y : ℕ} (hy : y < h)
    (x : ℕ) (d : ℚ) : gridDims w h (addCell g y x d) :=
  gridDims_setCell hg hy x _

/-- Reading any cell other than the written one is unchanged by `setCell`. -/
theorem getCell_setCell_ne (g : Grid) (v : ℚ) {y x y' x' : ℕ}
    (hne : y' ≠ y ∨ x' ≠ x) : getCell (setCell g y x v) y' x' = getCell g y' x' := by
  unfold getCell setCell
  rcases eq_or_ne y' y with rfl | hy
  · have hx : x' ≠ x := by
      rcases hne with hy | hx
      · exact absurd rfl hy
      · exact hx
    by_cases hylen : y' < g.length
    · rw [getD_set_self _ _ _ _ hylen, getD_set_ne _ _ _ _ _ (Ne.symm hx),
        List.getD_eq_getElem _ _ hylen]
    · rw [getD_out_of_range (List.set g y' ((g.getD y' []).set x v)) y' []
          (by rw [List.length_set]; omega),
        getD_out_of_range g y' [] (by omega)]
  · rw [getD_set_ne _ _ _ _ _ (Ne.symm hy)]

/-- Reading the written cell of a well-formed grid gives the written value. -/
theorem getCell_setCell_self {w h : ℕ} {g : Grid} (hg : gridDims w h g) {y x : ℕ}
    (hy : y < h) (hx : x < w) (v : ℚ) : getCell (setCell g y x v) y x = v := by
  unfold getCell setCell
  rw [getD_set_self _ _ _ _ (hg.1 ▸ hy)]
  exact getD_set_self _ _ _ _ (by rw [getRow_length hg hy]; exact hx)

/-- Pointwise description of `setCell` on a well-formed grid. -/
theorem getCell_setCell {w h : ℕ} {g : Grid} (hg : gridDims w h g) {a b : ℕ}
    (ha : a < h) (hb : b < w) (v : ℚ) (y x : ℕ) :
    getCell (setCell g a b v) y x = if y = a ∧ x = b then v else getCell g y x := by
  by_cases hyx : y = a ∧ x = b
  · obtain ⟨rfl, rfl⟩ := hyx
    rw [if_pos ⟨rfl, rfl⟩]
    exact getCell_setCell_self hg ha hb v
  · rw [if_neg hyx]
    refine getCell_setCell_ne g v ?_
    by_cases hya : y = a
    · subst hya
      exact Or.inr fun hxb => hyx ⟨rfl, hxb⟩
    · exact Or.inl hya

/-- Pointwise description of `addCell` on a well-formed grid. -/
theorem getCell_addCell {w h : ℕ} {g : Grid} (hg : gridDims w h g) {a b : ℕ}
    (ha : a < h) (hb : b < w) (d : ℚ) (y x : ℕ) :
    getCell (addCell g a b d) y x =
      getCell g y x + if y = a ∧ x = b then d else 0 := by
  unfold addCell
  rw [getCell_setCell hg ha hb _ y x]
  by_cases hyx : y = a ∧ x = b
  · obtain ⟨rfl, rfl⟩ := hyx
    rw [if_pos ⟨rfl, rfl⟩, if_pos ⟨rfl, rfl⟩]
  · rw [if_neg hyx, if_neg hyx, add_zero]

/-- Row-major index of pixel `(x, y)` in a grid of width `w`. -/
def posIdx (w y x : ℕ) : ℕ := y * w + x

theorem posIdx_inj {w y1 x1 y2 x2 : ℕ} (hx1 : x1 < w) (hx2 : x2 < w)
    (h : posIdx w y1 x1 = posIdx w y2 x2) : y1 = y2 ∧ x1 = x2 := by
  unfold posIdx at h
  have hw : 0 < w := Nat.lt_of_le_of_lt (Nat.zero_le x1) hx1
  have hy : y1 = y2 := by
    have h1 : (y1 * w + x1) / w = y1 := by
      rw [Nat.mul_comm, Nat.add_comm, Nat.add_mul_div_left x1 y1 hw,
        Nat.div_eq_of_lt hx1, Nat.zero_add]
    have h2 : (y2 * w + x2) / w = y2 := by
      rw [Nat.mul_comm, Nat.add_comm, Nat.add_mul_div_left x2 y2 hw,
        Nat.div_eq_of_lt hx2, Nat.zero_add]
    rw [← h1, ← h2, h]
  subst hy
  exact ⟨rfl, Nat.add_left_cancel h⟩

/-- Error-diffusion weight the step at pixel `(cx, cy)` sends to pixel
`(ux, uy)` (0 when the latter is not one of the four forward neighbours).
The source's bounds guards are equivalent to the receiving pixel being
in-bounds, so no `w`/`h` conditions appear here. -/
def dither_contrib (cy cx uy ux : ℕ) : ℚ :=
  if uy = cy ∧ ux = cx + 1 then 7/16
  else if uy = cy + 1 ∧ ux + 1 = cx then 3/16
  else if uy = cy + 1 ∧ ux = cx then 5/16
  else if uy = cy + 1 ∧ ux = cx + 1 then 1/16
  else 0

/-- Error is only diffused forward in row-major order. -/
theorem posIdx_lt_of_contrib_ne {w cy cx uy ux : ℕ} (hcx : cx < w) (hux : ux < w)
    (h : dither_contrib cy cx uy ux ≠ 0) : posIdx w cy cx < posIdx w uy ux := by
  unfold dither_contrib at h
  unfold posIdx
  split_ifs at h with h1 h2 h3 h4
  · rw [h1.1, h1.2]
    exact Nat.add_lt_add_left (Nat.lt_succ_self cx) (cy * w)
  · rw [h2.1, ← h2.2, Nat.succ_mul, Nat.add_assoc]
    exact Nat.add_lt_add_left (by omega) (cy * w)
  · rw [h3.1, h3.2, Nat.succ_mul, Nat.add_assoc]
    exact Nat.add_lt_add_left (by omega) (cy * w)
  · rw [h4.1, h4.2, Nat.succ_mul, Nat.add_assoc]
    exact Nat.add_lt_add_left (by omega) (cy * w)
  · exact absurd rfl h

/-- The diffusion weight is one of the five Floyd–Steinberg constants. -/
theorem contrib_cases (cy cx uy ux : ℕ) :
    dither_contrib cy cx uy ux = 0 ∨ dither_contrib cy cx uy ux = 7/16 ∨
    dither_contrib cy cx uy ux = 3/16 ∨ dither_contrib cy cx uy ux = 5/16 ∨
    dither_contrib cy cx uy ux = 1/16 := by
  unfold dither_contrib
  split_ifs <;> simp

/-- The quantization error left at pixel `(x, y)` by its own quantization. -/
def errOf (stp : ℚ) (g : Grid) (y x : ℕ) : ℚ :=
  getCell g y x - ((round (getCell g y x / stp) : ℤ) : ℚ) * stp

/-- `ditherStep` preserves well-formedness. -/
theorem ditherStep_dims (stp : ℚ) {w h : ℕ} {g : Grid} (hg : gridDims w h g)
    {cy cx : ℕ} (hcy : cy < h) (hcx : cx < w) :
    gridDims w h (ditherStep stp w h g cy cx) := by
  simp only [ditherStep]
  split_ifs with hB hA hC hA2 <;>
    (repeat' first | apply gridDims_addCell | apply gridDims_setCell) <;>
    first | exact hg | omega

/-- Pointwise evaluation of one dithering step: the processed pixel is set to
its quantized value and every other in-bounds pixel receives exactly its
diffusion weight times the quantization error. -/
theorem ditherStep_getCell (stp : ℚ) {w h : ℕ} {g : Grid} (hg : gridDims w h g)
    {cy cx : ℕ} (hcy : cy < h) (hcx : cx < w) (uy ux : ℕ) (huy : uy < h) (hux : ux < w) :
    getCell (ditherStep stp w h g cy cx) uy ux =
      if uy = cy ∧ ux = cx then ((round (getCell g cy cx / stp) : ℤ) : ℚ) * stp
      else getCell g uy ux + dither_contrib cy cx uy ux * errOf stp g cy cx := by
  by_cases hB : cy + 1 < h <;> by_cases hA : cx + 1 < w <;> by_cases hC : 1 ≤ cx <;>
    simp only [ditherStep, hB, hA, hC, if_true, if_false]
  · rw [getCell_addCell (gridDims_addCell (gridDims_addCell (gridDims_addCell
        (gridDims_setCell hg hcy _ _) hcy _ _) hB _ _) hB _ _) hB hA,
      getCell_addCell (gridDims_addCell (gridDims_addCell
        (gridDims_setCell hg hcy _ _) hcy _ _) hB _ _) hB hcx,
      getCell_addCell (gridDims_addCell (gridDims_setCell hg hcy _ _) hcy _ _) hB
        (show cx - 1 < w by omega),
      getCell_addCell (gridDims_setCell hg hcy _ _) hcy hA,
      getCell_setCell hg hcy hcx]
    unfold dither_contrib errOf
    split_ifs <;> first | omega | ring
  · rw [getCell_addCell (gridDims_addCell (gridDims_addCell
        (gridDims_setCell hg hcy _ _) hcy _ _) hB _ _) hB hA,
      getCell_addCell (gridDims_addCell (gridDims_setCell hg hcy _ _) hcy _ _) hB hcx,
      getCell_addCell (gridDims_setCell hg hcy _ _) hcy hA,
      getCell_setCell hg hcy hcx]
    unfold dither_contrib errOf
    split_ifs <;> first | omega | ring
  · rw [getCell_addCell (gridDims_addCell (gridDims_setCell hg hcy _ _) hB _ _) hB hcx,
      getCell_addCell (gridDims_setCell hg hcy _ _) hB (show cx - 1 < w by omega),
      getCell_setCell hg hcy hcx]
    unfold dither_contrib errOf
    split_ifs <;> first | omega | ring
  · rw [getCell_addCell (gridDims_setCell hg hcy _ _) hB hcx,
      getCell_setCell hg hcy hcx]
    unfold dither_contrib errOf
    split_ifs <;> first | omega | ring
  · rw [getCell_addCell (gridDims_setCell hg hcy _ _) hcy hA,
      getCell_setCell hg hcy hcx]
    unfold dither_contrib errOf
    split_ifs <;> first | omega | ring
  · rw [getCell_addCell (gridDims_setCell hg hcy _ _) hcy hA,
      getCell_setCell hg hcy hcx]
    unfold dither_contrib errOf
    split_ifs <;> first | omega | ring
  · rw [getCell_setCell hg hcy hcx]
    unfold dither_contrib errOf
    split_ifs <;> first | omega | ring
  · rw [getCell_setCell hg hcy hcx]
    unfold dither_contrib errOf
    split_ifs <;> first | omega | ring

/-- Total Floyd–Steinberg weight pixel `(x, y)` has already received from the
cells processed before step `m` (each existing backward neighbour contributes
its weight once its row-major index drops below `m`). -/
def Win (w m y x : ℕ) : ℚ :=
  (if 1 ≤ x ∧ posIdx w y (x - 1) < m then (7:ℚ)/16 else 0) +
  (if 1 ≤ y ∧ x + 1 < w ∧ posIdx w (y - 1) (x + 1) < m then (3:ℚ)/16 else 0) +
  (if 1 ≤ y ∧ posIdx w (y - 1) x < m then (5:ℚ)/16 else 0) +
  (if 1 ≤ y ∧ 1 ≤ x ∧ posIdx w (y - 1) (x - 1) < m then (1:ℚ)/16 else 0)

theorem Win_nonneg (w m y x : ℕ) : 0 ≤ Win w m y x := by
  unfold Win
  split_ifs <;> norm_num

theorem Win_le_one (w m y x : ℕ) : Win w m y x ≤ 1 := by
  unfold Win
  split_ifs <;> norm_num

theorem Win_zero (w y x : ℕ) : Win w 0 y x = 0 := by
  unfold Win
  simp

theorem ite_or_add {A B : Prop} [Decidable A] [Decidable B] (hAB : ¬(A ∧ B)) (q : ℚ) :
    (if A ∨ B then q else 0) = (if A then q else 0) + (if B then q else 0) := by
  split_ifs <;> first | tauto | ring

/-- The four diffusion weights, summed over the mutually exclusive neighbour
relations, equal `dither_contrib`. -/
theorem contrib_sum (cy cx uy ux : ℕ) :
    (if uy = cy ∧ ux = cx + 1 then (7:ℚ)/16 else 0) +
    (if uy = cy + 1 ∧ ux + 1 = cx then (3:ℚ)/16 else 0) +
    (if uy = cy + 1 ∧ ux = cx then (5:ℚ)/16 else 0) +
    (if uy = cy + 1 ∧ ux = cx + 1 then (1:ℚ)/16 else 0) = dither_contrib cy cx uy ux := by
  unfold dither_contrib
  split_ifs <;> first | omega | ring

/-- Processing cell `m = posIdx cy cx` raises each pixel's received weight by
exactly the weight that cell sends it. -/
theorem Win_succ {w m cy cx : ℕ} (hcx : cx < w) (hm : m = posIdx w cy cx)
    (uy ux : ℕ) (hux : ux < w) :
    Win w (m + 1) uy ux = Win w m uy ux + dither_contrib cy cx uy ux := by
  have e1 : (1 ≤ ux ∧ posIdx w uy (ux - 1) < m + 1) ↔
      ((1 ≤ ux ∧ posIdx w uy (ux - 1) < m) ∨ (uy = cy ∧ ux = cx + 1)) := by
    constructor
    · rintro ⟨hx1, hlt⟩
      rcases Nat.lt_succ_iff_lt_or_eq.mp hlt with hlt' | heq
      · exact Or.inl ⟨hx1, hlt'⟩
      · obtain ⟨hy, hx⟩ := posIdx_inj (show ux - 1 < w by omega) hcx (heq.trans hm)
        exact Or.inr ⟨hy, by omega⟩
    · rintro (⟨hx1, hlt⟩ | ⟨hy, hx⟩)
      · exact ⟨hx1, Nat.lt_succ_of_lt hlt⟩
      · have hpos : posIdx w uy (ux - 1) = m := by
          rw [hy, hx, Nat.add_sub_cancel]
          exact hm.symm
        exact ⟨by omega, by rw [hpos]; exact Nat.lt_succ_self m⟩
  have e2 : (1 ≤ uy ∧ ux + 1 < w ∧ posIdx w (uy - 1) (ux + 1) < m + 1) ↔
      ((1 ≤ uy ∧ ux + 1 < w ∧ posIdx w (uy - 1) (ux + 1) < m) ∨
        (uy = cy + 1 ∧ ux + 1 = cx)) := by
    constructor
    · rintro ⟨hy1, hxw, hlt⟩
      rcases Nat.lt_succ_iff_lt_or_eq.mp hlt with hlt' | heq
      · exact Or.inl ⟨hy1, hxw, hlt'⟩
      · obtain ⟨hy, hx⟩ := posIdx_inj hxw hcx (heq.trans hm)
        exact Or.inr ⟨by omega, hx⟩
    · rintro (⟨hy1, hxw, hlt⟩ | ⟨hy, hx⟩)
      · exact ⟨hy1, hxw, Nat.lt_succ_of_lt hlt⟩
      · have hpos : posIdx w (uy - 1) (ux + 1) = m := by
          rw [hy, Nat.add_sub_cancel, hx]
          exact hm.symm
        exact ⟨by omega, by omega, by rw [hpos]; exact Nat.lt_succ_self m⟩
  have e3 : (1 ≤ uy ∧ posIdx w (uy - 1) ux < m + 1) ↔
      ((1 ≤ uy ∧ posIdx w (uy - 1) ux < m) ∨ (uy = cy + 1 ∧ ux = cx)) := by
    constructor
    · rintro ⟨hy1, hlt⟩
      rcases Nat.lt_succ_iff_lt_or_eq.mp hlt with hlt' | heq
      · exact Or.inl ⟨hy1, hlt'⟩
      · obtain ⟨hy, hx⟩ := posIdx_inj hux hcx (heq.trans hm)
        exact Or.inr ⟨by omega, hx⟩
    · rintro (⟨hy1, hlt⟩ | ⟨hy, hx⟩)
      · exact ⟨hy1, Nat.lt_succ_of_lt hlt⟩
      · have hpos : posIdx w (uy - 1) ux = m := by
          rw [hy, Nat.add_sub_cancel, hx]
          exact hm.symm
        exact ⟨by omega, by rw [hpos]; exact Nat.lt_succ_self m⟩
  have e4 : (1 ≤ uy ∧ 1 ≤ ux ∧ posIdx w (uy - 1) (ux - 1) < m + 1) ↔
      ((1 ≤ uy ∧ 1 ≤ ux ∧ posIdx w (uy - 1) (ux - 1) < m) ∨
        (uy = cy + 1 ∧ ux = cx + 1)) := by
    constructor
    · rintro ⟨hy1, hx1, hlt⟩
      rcases Nat.lt_succ_iff_lt_or_eq.mp hlt with hlt' | heq
      · exact Or.inl ⟨hy1, hx1, hlt'⟩
      · obtain ⟨hy, hx⟩ := posIdx_inj (show ux - 1 < w by omega) hcx (heq.trans hm)
        exact Or.inr ⟨by omega, by omega⟩
    · rintro (⟨hy1, hx1, hlt⟩ | ⟨hy, hx⟩)
      · exact ⟨hy1, hx1, Nat.lt_succ_of_lt hlt⟩
      · have hpos : posIdx w (uy - 1) (ux - 1) = m := by
          rw [hy, hx, Nat.add_sub_cancel, Nat.add_sub_cancel]
          exact hm.symm
        exact ⟨by omega, by omega, by rw [hpos]; exact Nat.lt_succ_self m⟩
  have hab1 : ¬((1 ≤ ux ∧ posIdx w uy (ux - 1) < m) ∧ (uy = cy ∧ ux = cx + 1)) := by
    rintro ⟨⟨hx1, hlt⟩, hy, hx⟩
    have : posIdx w uy (ux - 1) = m := by
      rw [hy, hx, Nat.add_sub_cancel]
      exact hm.symm
    omega
  have hab2 : ¬((1 ≤ uy ∧ ux + 1 < w ∧ posIdx w (uy - 1) (ux + 1) < m) ∧
      (uy = cy + 1 ∧ ux + 1 = cx)) := by
    rintro ⟨⟨hy1, hxw, hlt⟩, hy, hx⟩
    have : posIdx w (uy - 1) (ux + 1) = m := by
      rw [hy, Nat.add_sub_cancel, hx]
      exact hm.symm
    omega
  have hab3 : ¬((1 ≤ uy ∧ posIdx w (uy - 1) ux < m) ∧ (uy = cy + 1 ∧ ux = cx)) := by
    rintro ⟨⟨hy1, hlt⟩, hy, hx⟩
    have : posIdx w (uy - 1) ux = m := by
      rw [hy, Nat.add_sub_cancel, hx]
      exact hm.symm
    omega
  have hab4 : ¬((1 ≤ uy ∧ 1 ≤ ux ∧ posIdx w (uy - 1) (ux - 1) < m) ∧
      (uy = cy + 1 ∧ ux = cx + 1)) := by
    rintro ⟨⟨hy1, hx1, hlt⟩, hy, hx⟩
    have : posIdx w (uy - 1) (ux - 1) = m := by
      rw [hy, hx, Nat.add_sub_cancel, Nat.add_sub_cancel]
      exact hm.symm
    omega
  unfold Win
  rw [if_congr e1 rfl rfl, if_congr e2 rfl rfl, if_congr e3 rfl rfl, if_congr e4 rfl rfl,
    ite_or_add hab1, ite_or_add hab2, ite_or_add hab3, ite_or_add hab4,
    ← contrib_sum cy cx uy ux]
  ring

/-- Induction invariant for the dithering loop after `m` cells processed:
the grid stays well-formed; every processed pixel holds `k * step` with
`0 ≤ k ≤ n - 1`; and every unprocessed pixel deviates from its original value
by at most `step/2` times its received weight (strictly below once any weight
arrived). -/
def dither_inv (stp : ℚ) (w h n : ℕ) (g0 : Grid) (m : ℕ) : Prop :=
  gridDims w h (processUpTo stp w h g0 m) ∧
  (∀ y x, y < h → x < w → posIdx w y x < m →
    ∃ k : ℕ, k ≤ n - 1 ∧ getCell (processUpTo stp w h g0 m) y x = (k : ℚ) * stp) ∧
  (∀ y x, y < h → x < w → m ≤ posIdx w y x →
    -(stp / 2) * Win w m y x ≤ getCell (processUpTo stp w h g0 m) y x - getCell g0 y x ∧
    getCell (processUpTo stp w h g0 m) y x - getCell g0 y x ≤ stp / 2 * Win w m y x ∧
    (0 < Win w m y x →
      getCell (processUpTo stp w h g0 m) y x - getCell g0 y x < stp / 2 * Win w m y x))

theorem dither_inv_zero (stp : ℚ) (w h n : ℕ) (g0 : Grid) (hdims : gridDims w h g0) :
    dither_inv stp w h n g0 0 := by
  refine ⟨hdims, ?_, ?_⟩
  · intro y x _ _ hlt
    exact absurd hlt (Nat.not_lt_zero _)
  · intro y x _ _ _
    rw [Win_zero]
    exact ⟨by simp [processUpTo], by simp [processUpTo], fun h0 => absurd h0 (lt_irrefl 0)⟩

theorem dither_inv_step (stp : ℚ) (w h n : ℕ) (g0 : Grid)
    (hn : 2 ≤ n) (hstp : ((n : ℚ) - 1) * stp = 255)
    (hrange : ∀ y x, y < h → x < w → 0 ≤ getCell g0 y x ∧ getCell g0 y x ≤ 255)
    (m : ℕ) (hm : m < h * w) (ih : dither_inv stp w h n g0 m) :
    dither_inv stp w h n g0 (m + 1) := by
  obtain ⟨ihD, ihB, ihC⟩ := ih
  have hn1 : (1 : ℚ) ≤ (n : ℚ) - 1 := by
    have h2n : (2 : ℚ) ≤ (n : ℚ) := by exact_mod_cast hn
    linarith
  have hstppos : 0 < stp := by
    by_contra hle
    push_neg at hle
    nlinarith [hstp, hn1]
  have hw0 : 0 < w := by
    rcases Nat.eq_zero_or_pos w with h0 | h0
    · rw [h0, Nat.mul_zero] at hm
      exact absurd hm (Nat.not_lt_zero m)
    · exact h0
  set cy := m / w with hcy_def
  set cx := m % w with hcx_def
  have hcx : cx < w := Nat.mod_lt m hw0
  have hcy : cy < h := (Nat.div_lt_iff_lt_mul hw0).mpr hm
  have hmIdx : m = posIdx w cy cx := by
    unfold posIdx
    rw [Nat.mul_comm]
    exact (Nat.div_add_mod m w).symm
  set G := processUpTo stp w h g0 m with hG
  have hstep : processUpTo stp w h g0 (m + 1) = ditherStep stp w h G cy cx := rfl
  obtain ⟨hC1, hC2, hC3⟩ := ihC cy cx hcy hcx (le_of_eq hmIdx)
  obtain ⟨hor0, hor255⟩ := hrange cy cx hcy hcx
  set v := getCell G cy cx with hv
  have hWle := Win_le_one w m cy cx
  have hWnn := Win_nonneg w m cy cx
  have hWstp : stp / 2 * Win w m cy cx ≤ stp / 2 * 1 :=
    mul_le_mul_of_nonneg_left hWle (le_of_lt (half_pos hstppos))
  have hvlb : -(stp / 2) ≤ v - getCell g0 cy cx := by
    have := hC1
    linarith
  have hvub : v - getCell g0 cy cx < stp / 2 := by
    rcases eq_or_lt_of_le hWnn with hW0 | hWpos
    · have h1 := hC1
      have h2 := hC2
      rw [← hW0] at h1 h2
      have hz : v - getCell g0 cy cx = 0 := by
        have e1 : -(stp / 2) * 0 = (0 : ℚ) := by ring
        have e2 : stp / 2 * 0 = (0 : ℚ) := by ring
        rw [e1] at h1
        rw [e2] at h2
        linarith
      linarith [half_pos hstppos]
    · have := hC3 hWpos
      linarith
  have hv0 : -(stp / 2) ≤ v := by linarith
  have hv255 : v < 255 + stp / 2 := by linarith
  set k : ℤ := round (v / stp) with hk
  have hk0 : 0 ≤ k := by
    have h1 : -(1 / 2 : ℚ) * stp ≤ v := by linarith
    have h2 : -(1 / 2 : ℚ) ≤ v / stp := (le_div_iff hstppos).mpr h1
    rw [hk, round_eq]
    apply Int.le_floor.mpr
    push_cast
    linarith
  have hkn : k < n := by
    have hexp : ((n : ℚ) - 1 + 1 / 2) * stp = 255 + stp / 2 := by
      rw [add_mul, hstp]
      ring
    have h2 : v / stp < (n : ℚ) - 1 + 1 / 2 := by
      rw [div_lt_iff hstppos, hexp]
      exact hv255
    rw [hk, round_eq]
    apply Int.floor_lt.mpr
    push_cast
    linarith
  set e := errOf stp G cy cx with he
  have heq_e : e = v - (k : ℚ) * stp := rfl
  have he_lb : -(stp / 2) ≤ e := by
    have h1 : ((k : ℚ)) ≤ v / stp + 1 / 2 := by
      rw [hk, round_eq]
      push_cast
      exact Int.floor_le _
    have h2 : (k : ℚ) * stp ≤ (v / stp + 1 / 2) * stp :=
      mul_le_mul_of_nonneg_right h1 (le_of_lt hstppos)
    have h3 : v / stp * stp = v := div_mul_cancel₀ v (ne_of_gt hstppos)
    have h4 : (v / stp + 1 / 2) * stp = v + stp / 2 := by
      rw [add_mul, h3]
      ring
    rw [h4] at h2
    rw [heq_e]
    linarith
  have he_ub : e < stp / 2 := by
    have h1 : v / stp + 1 / 2 < (k : ℚ) + 1 := by
      rw [hk, round_eq]
      push_cast
      exact Int.lt_floor_add_one _
    have h2 : v / stp < (k : ℚ) + 1 / 2 := by linarith
    have h3 : v < ((k : ℚ) + 1 / 2) * stp := (div_lt_iff hstppos).mp h2
    have h4 : ((k : ℚ) + 1 / 2) * stp = (k : ℚ) * stp + stp / 2 := by ring
    rw [heq_e]
    linarith
  have hD' : gridDims w h (ditherStep stp w h G cy cx) := ditherStep_dims stp ihD hcy hcx
  have hEval := fun uy ux huy hux => ditherStep_getCell stp ihD hcy hcx uy ux huy hux
  refine ⟨hstep ▸ hD', ?_, ?_⟩
  · intro y x hy hx hlt
    rw [hstep, hEval y x hy hx]
    by_cases hyx : y = cy ∧ x = cx
    · rw [if_pos hyx]
      have hcast : ((k.toNat : ℕ) : ℚ) = (k : ℚ) := by
        have h1 : (k.toNat : ℤ) = k := Int.toNat_of_nonneg hk0
        exact_mod_cast h1
      refine ⟨k.toNat, by omega, ?_⟩
      rw [hcast, hk]
    · rw [if_neg hyx]
      have hne_idx : posIdx w y x ≠ m := fun heq =>
        hyx (posIdx_inj hx hcx (heq.trans hmIdx))
      have hlt' : posIdx w y x < m := by omega
      obtain ⟨k', hk'le, hk'val⟩ := ihB y x hy hx hlt'
      have hcontrib0 : dither_contrib cy cx y x = 0 := by
        by_contra hne
        have hgt := posIdx_lt_of_contrib_ne (w := w) hcx hx hne
        omega
      rw [hcontrib0, zero_mul, add_zero]
      exact ⟨k', hk'le, hk'val⟩
  · intro y x hy hx hge
    rw [hstep, hEval y x hy hx]
    have hyx : ¬(y = cy ∧ x = cx) := by
      rintro ⟨rfl, rfl⟩
      omega
    rw [if_neg hyx, Win_succ hcx hmIdx y x hx]
    obtain ⟨ho1, ho2, ho3⟩ := ihC y x hy hx (by omega)
    rcases contrib_cases cy cx y x with hcb | hcb | hcb | hcb | hcb
    · rw [hcb]
      simp only [zero_mul, add_zero]
      exact ⟨ho1, ho2, ho3⟩
    · rw [hcb, ← he]
      exact ⟨by linarith [ho1, he_lb], by linarith [ho2, he_ub],
        fun _ => by linarith [ho2, he_ub]⟩
    · rw [hcb, ← he]
      exact ⟨by linarith [ho1, he_lb], by linarith [ho2, he_ub],
        fun _ => by linarith [ho2, he_ub]⟩
    · rw [hcb, ← he]
      exact ⟨by linarith [ho1, he_lb], by linarith [ho2, he_ub],
        fun _ => by linarith [ho2, he_ub]⟩
    · rw [hcb, ← he]
      exact ⟨by linarith [ho1, he_lb], by linarith [ho2, he_ub],
        fun _ => by linarith [ho2, he_ub]⟩

theorem dither_inv_all (stp : ℚ) (w h n : ℕ) (g0 : Grid)
    (hn : 2 ≤ n) (hstp : ((n : ℚ) - 1) * stp = 255)
    (hdims : gridDims w h g0)
    (hrange : ∀ y x, y < h → x < w → 0 ≤ getCell g0 y x ∧ getCell g0 y x ≤ 255) :
    ∀ m, m ≤ h * w → dither_inv stp w h n g0 m := by
  intro m
  induction m with
  | zero => intro _; exact dither_inv_zero stp w h n g0 hdims
  | succ j ihj =>
    intro hle
    exact dither_inv_step stp w h n g0 hn hstp hrange j (by omega) (ihj (by omega))

/-- C4 (amended): for every well-formed input grid with values in `[0, 255]`
and every `numberOfColors = n ≥ 2`, every value of the grid returned by
`ditherImage` is an exact rational multiple `k * (255/(n-1))` with
`0 ≤ k ≤ n-1` — the true level set is the unrounded one (for `n = 3` the mid
level is `127.5`, not `128`). In particular the output stays within `[0, 255]`
even though the code applies no clamp. -/
theorem c4_amended_exact_levels (pid : ProcessedImageData) (n : ℕ) (hn : 2 ≤ n)
    (hdims : pid.data.length = pid.height ∧ ∀ row ∈ pid.data, row.length = pid.width)
    (hrange : ∀ y ∈ List.range pid.height, ∀ x ∈ List.range pid.width,
      0 ≤ getCell pid.data y x ∧ getCell pid.data y x ≤ 255)
    (y x : ℕ) (hy : y < pid.height) (hx : x < pid.width) :
    ∃ k : ℕ, k ≤ n - 1 ∧
      getCell (ditherImage pid n).data y x = (k : ℚ) * (255 / ((n : ℚ) - 1)) ∧
      0 ≤ getCell (ditherImage pid n).data y x ∧
      getCell (ditherImage pid n).data y x ≤ 255 := by
  set stp : ℚ := 255 / ((n : ℚ) - 1) with hstp_def
  have hn1 : (1 : ℚ) ≤ (n : ℚ) - 1 := by
    have h2n : (2 : ℚ) ≤ (n : ℚ) := by exact_mod_cast hn
    linarith
  have hne : ((n : ℚ) - 1) ≠ 0 := by linarith
  have hstp : ((n : ℚ) - 1) * stp = 255 := by
    rw [hstp_def]
    field_simp
  have hstppos : 0 < stp := by
    rw [hstp_def]
    exact div_pos (by norm_num) (by linarith)
  have hrange' : ∀ y x, y < pid.height → x < pid.width →
      0 ≤ getCell pid.data y x ∧ getCell pid.data y x ≤ 255 := fun y x hy hx =>
    hrange y (List.mem_range.mpr hy) x (List.mem_range.mpr hx)
  obtain ⟨hD, hB, hC⟩ := dither_inv_all stp pid.width pid.height n pid.data hn hstp
    ⟨hdims.1, hdims.2⟩ hrange' (pid.height * pid.width) (le_refl _)
  have hdata : (ditherImage pid n).data =
      processUpTo stp pid.width pid.height pid.data (pid.height * pid.width) :=
    ditherLoop_eq_processUpTo stp pid.width pid.height pid.data
  have hidx : posIdx pid.width y x < pid.height * pid.width := by
    unfold posIdx
    calc y * pid.width + x < y * pid.width + pid.width := by omega
    _ = (y + 1) * pid.width := (Nat.succ_mul y pid.width).symm
    _ ≤ pid.height * pid.width := Nat.mul_le_mul_right _ hy
  obtain ⟨k, hkle, hkval⟩ := hB y x hy hx hidx
  have hkq : (k : ℚ) ≤ (n : ℚ) - 1 := by
    have h1 : (k : ℚ) ≤ ((n - 1 : ℕ) : ℚ) := by exact_mod_cast hkle
    have h2 : ((n - 1 : ℕ) : ℚ) = (n : ℚ) - 1 := by
      have h3 : (1 : ℕ) ≤ n := by omega
      push_cast [Nat.cast_sub h3]
      ring
    linarith
  refine ⟨k, hkle, ?_, ?_, ?_⟩
  · rw [hdata]
    exact hkval
  · rw [hdata, hkval]
    exact mul_nonneg (Nat.cast_nonneg k) (le_of_lt hstppos)
  · rw [hdata, hkval]
    calc (k : ℚ) * stp ≤ ((n : ℚ) - 1) * stp :=
      mul_le_mul_of_nonneg_right hkq (le_of_lt hstppos)
    _ = 255 := hstp

/-- A 2×2 test grid with in-range values. -/
def c4WitnessGrid : ProcessedImageData :=
  { data := [[128, 64], [192, 32]], width := 2, height := 2 }

/-- Witness for C4 (amended) at the 2×2 grid and `n = 3`. -/
theorem c4_witness :
    2 ≤ 3 ∧
    (∃ k : ℕ, k ≤ 3 - 1 ∧
      getCell (ditherImage c4WitnessGrid 3).data 0 0 = (k : ℚ) * (255 / ((3 : ℚ) - 1)) ∧
      0 ≤ getCell (ditherImage c4WitnessGrid 3).data 0 0 ∧
      getCell (ditherImage c4WitnessGrid 3).data 0 0 ≤ 255) :=
  ⟨by norm_num,
    c4_amended_exact_levels c4WitnessGrid 3 (by norm_num)
      ⟨by decide, by decide⟩ (by decide) 0 0 (by decide) (by decide)⟩

end Proofs

end ShadowCaster
